import Mathlib

/-!
A shallow embedding of `sc8prx/ffmpeg.py` (classes `Reader` and `Writer` and
the module-level transcoding procedures `Reader.decode` and `Writer.encode`),
together with theorems settling the specification claims about them.

Modelling conventions:

* The external imageio/FFmpeg engine is opaque.  A media source is modelled by
  the sequence of outcomes that successive `next(self._iter)` calls produce:
  each call either yields a frame (an abstract byte blob, modelled as `Nat`),
  raises `StopIteration` (when the event list is exhausted), or raises some
  other engine exception (an `error` event carrying an abstract code).
* Python exceptions are modelled with `Except`: a function that can raise
  returns `Except EngErr _`; a `try/except` in the source becomes a `match`
  on that result.  A bare `except:` catches every constructor.
* The frame archive (`ZipFile` / `VidZip`) is modelled by its list of entries;
  `zf.writestr(str(i), data)` may itself raise an archive exception, modelled
  by a caller-supplied `archOk : Nat → Bool` schedule (`archOk i = false`
  means the store of entry `i` raises).  Opening the zip file and the final
  `meta.json` store are modelled as succeeding.
* Frame/pixel sizes are `Nat × Nat`; metadata numbers are `ℚ` (the Python
  floats carry no rounding concerns relevant to the claims).
-/

namespace Sc8prx

/-- Outcome of one `next(self._iter)` call on the engine's frame iterator:
either a decoded frame (its bytes abstracted to a `Nat`), or an engine
exception other than `StopIteration`.  An exhausted source (empty remaining
event list) raises `StopIteration`. -/
inductive EngEvent where
  | frame (data : Nat)
  | error (code : Nat)
deriving DecidableEq, Repr

/-- Exceptions that engine calls can raise: `StopIteration`
(normal end of stream) or any other engine failure. -/
inductive EngErr where
  | stop
  | fail (code : Nat)
deriving DecidableEq, Repr

/-- One engine iterator call, from `next(self._iter)`: the produced value (or
exception) together with the advanced iterator state. -/
def engineNext : List EngEvent → Except EngErr Nat × List EngEvent
  | [] => (Except.error EngErr.stop, [])
  | EngEvent.frame d :: rest => (Except.ok d, rest)
  | EngEvent.error e :: rest => (Except.error (EngErr.fail e), rest)

namespace Reader

/-- Embedding of `Reader.skip` acting on the `_iter` stream (the only state
the method touches):

    while n:
        try:
            next(self._iter)
            n -= 1
        except: n = 0
    return self

The bare `except:` catches `StopIteration` and every other engine exception
alike; either way the loop ends (`n = 0`) and `skip` returns normally. -/
def skip : Nat → List EngEvent → List EngEvent
  | 0, evs => evs
  | _ + 1, [] => []
  | n + 1, EngEvent.frame _ :: rest => skip n rest
  | _ + 1, EngEvent.error _ :: rest => rest

/-- Embedding of `Reader.__iter__` (which repeatedly yields `next(self)`,
catching only `StopIteration`): the frames yielded before termination, paired
with the engine failure that aborted the iteration, if any (`none` means the
normal `StopIteration` end). -/
def iterate : List EngEvent → List Nat × Option Nat
  | [] => ([], none)
  | EngEvent.frame d :: rest => ((iterate rest).1.cons d, (iterate rest).2)
  | EngEvent.error e :: _ => ([], some e)

/-- Embedding of the stream consumption performed by `Reader.read(n)` /
`Reader._read(n)`: reads `n` frames, catching only `StopIteration`; any other
engine exception propagates (as the error's code). -/
def readN : Nat → List EngEvent → Except Nat (List EngEvent)
  | 0, evs => Except.ok evs
  | _ + 1, [] => Except.ok []
  | n + 1, EngEvent.frame _ :: rest => readN n rest
  | _ + 1, EngEvent.error e :: _ => Except.error e

end Reader

/-- Pure frame sources: a list of frames, no engine failures. -/
def pureSrc (fs : List Nat) : List EngEvent := fs.map EngEvent.frame

/-- Embedding of the inner skip of the decode loop,
`for j in range(interval-1): next(ffr._iter)`: advances the iterator `j`
times; the first exception (exhaustion or engine failure) aborts the `for`
and propagates to the enclosing `try`. -/
def skipPhase : Nat → List EngEvent → Except EngErr (List EngEvent)
  | 0, evs => Except.ok evs
  | _ + 1, [] => Except.error EngErr.stop
  | j + 1, EngEvent.frame _ :: rest => skipPhase j rest
  | _ + 1, EngEvent.error e :: _ => Except.error (EngErr.fail e)

/-- Result of the decode loop: the counter `i` (stored as `meta["nframes"]`),
the archive entries written (`zf.writestr(str(i), data)` calls that
succeeded, as index/data pairs), and — as instrumentation of the engine
boundary — the number of frames successfully read via `next(ffr)` inside the
loop body. -/
structure LoopOut where
  nframes : Nat
  entries : List (Nat × Nat)
  reads : Nat
deriving DecidableEq, Repr

/-- Embedding of the frame-by-frame loop of `Reader.decode`:

    try:
        while True:
            for j in range(interval-1): next(ffr._iter)
            data = bytes(next(ffr))
            if data != prev: zf.writestr(str(i), data)
            prev = data
            i += 1
            if i == frames: break
    except: pass

`j` is `interval - 1`; `archOk` is the archive's store schedule
(`archOk i = false` meaning `zf.writestr(str(i), data)` raises, which the
bare `except:` also catches).  `fuel` bounds the recursion; every iteration
consumes at least one engine event, so `evs.length + 1` is always enough. -/
def decodeLoop : Nat → Nat → Option Nat → (Nat → Bool) → Nat → Option Nat →
    List (Nat × Nat) → Nat → List EngEvent → LoopOut
  | 0, _, _, _, i, _, es, r, _ => ⟨i, es, r⟩
  | fuel + 1, j, frames, archOk, i, prev, es, r, evs =>
    match skipPhase j evs with
    | Except.error _ => ⟨i, es, r⟩
    | Except.ok evs1 =>
      match evs1 with
      | [] => ⟨i, es, r⟩
      | EngEvent.error _ :: _ => ⟨i, es, r⟩
      | EngEvent.frame d :: evs2 =>
        if prev = some d then
          if frames = some (i + 1) then ⟨i + 1, es, r + 1⟩
          else decodeLoop fuel j frames archOk (i + 1) (some d) es (r + 1) evs2
        else if archOk i then
          if frames = some (i + 1) then ⟨i + 1, es ++ [(i, d)], r + 1⟩
          else decodeLoop fuel j frames archOk (i + 1) (some d) (es ++ [(i, d)]) (r + 1) evs2
        else ⟨i, es, r + 1⟩

/-- The archive contents `Reader.decode` produces: the frame entries and the
`meta.json` record (its `fps` and `nframes` fields, the two keys the
procedure writes). -/
structure DecodeResult where
  entries : List (Nat × Nat)
  metaFps : Option ℚ
  metaNframes : Nat
deriving DecidableEq, Repr

/-- Embedding of the static procedure `Reader.decode` (decode-to-archive).
In order: the `fps` metadata adjustment (`if meta.get("fps") and interval >
1: meta["fps"] /= interval`, with Python truthiness making `fps == 0.0`
falsy), the initial `if start: ffr.read(start)` (whose engine failures
propagate — they happen outside the guarded loop), the guarded frame loop,
and the unconditional `meta["nframes"] = i; zf.writestr("meta.json", ...)`.
Opening the zip/reader and the `meta.json` store are modelled as succeeding;
a propagated failure is the error's engine code. -/
def Reader.decode (interval start : Nat) (frames : Option Nat)
    (archOk : Nat → Bool) (fps : Option ℚ) (evs : List EngEvent) :
    Except Nat DecodeResult :=
  let fps' : Option ℚ :=
    match fps with
    | some f => if f ≠ 0 ∧ 1 < interval then some (f / interval) else some f
    | none => none
  match Reader.readN start evs with
  | Except.error e => Except.error e
  | Except.ok evs1 =>
    let out := decodeLoop (evs1.length + 1) (interval - 1) frames archOk 0 none [] 0 evs1
    Except.ok ⟨out.entries, fps', out.nframes⟩

/-- Specification-side helper: `strideAux c j fs` discards `c` more elements,
keeps the next one, then repeats with period `j + 1`.  `strideSel j fs`
(below) is therefore the subsequence a decode loop with inner skip `j`
reads: elements at positions `j, 2j+1, 3j+2, ...`. -/
def strideAux : Nat → Nat → List Nat → List Nat
  | _, _, [] => []
  | 0, j, d :: rest => d :: strideAux j j rest
  | c + 1, j, _ :: rest => strideAux c j rest

/-- The frames a decode loop with inner skip `j` (interval `j + 1`) selects
from a source: every `(j+1)`-th frame. -/
def strideSel (j : Nat) (fs : List Nat) : List Nat := strideAux j j fs

/-- Specification-side helper: the archive entries the decode loop stores
from a run of frames, starting at entry index `i` with previous frame
`prev` — one `(index, data)` entry per frame whose data differs from the
immediately preceding frame's data. -/
def dedupIx : Nat → Option Nat → List Nat → List (Nat × Nat)
  | _, _, [] => []
  | i, prev, d :: rest =>
    if prev = some d then dedupIx (i + 1) (some d) rest
    else (i, d) :: dedupIx (i + 1) (some d) rest

/-- Whether an `Except` computation finished normally (no exception). -/
def isOkE {ε α : Type} : Except ε α → Bool
  | Except.ok _ => true
  | Except.error _ => false

instance {ε α : Type} [DecidableEq ε] [DecidableEq α] :
    DecidableEq (Except ε α) := fun x y =>
  match x, y with
  | Except.ok a, Except.ok b => decidable_of_iff (a = b) (by simp)
  | Except.ok _, Except.error _ => isFalse (by simp)
  | Except.error _, Except.ok _ => isFalse (by simp)
  | Except.error a, Except.error b => decidable_of_iff (a = b) (by simp)

/-- Specification-side helper: Python's `lst[: n]` truncation for an optional
bound (`none` meaning no bound). -/
def takeOpt : Option Nat → List Nat → List Nat
  | none, l => l
  | some n, l => l.take n

/-- Specification-side helper: `min` against an optional bound. -/
def optMin : Option Nat → Nat → Nat
  | none, v => v
  | some m, v => min m v

/-- The declared frame count in movie metadata: a finite number, or the
float `inf` that imageio reports for unbounded streams. -/
inductive NFrames where
  | fin (n : Nat)
  | inf
deriving DecidableEq, Repr

/-- Movie metadata, restricted to the keys this module reads
(`nframes`, `fps`, `duration`, `size`); `none` models an absent key
(Python `KeyError` on access). -/
structure Meta where
  nframes : Option NFrames
  fps : Option ℚ
  duration : Option ℚ
  size : Option (Nat × Nat)
deriving DecidableEq, Repr

/-- Python's `round` on a number: round half to even (banker's rounding). -/
def pyRound (q : ℚ) : ℤ :=
  let f := ⌊q⌋
  let r := q - (f : ℚ)
  if r < 1 / 2 then f
  else if 1 / 2 < r then f + 1
  else if f % 2 = 0 then f else f + 1

/-- Embedding of `Reader.estimateFrames`:

    try:
        meta = self._meta
        n = meta["nframes"]
        if n == float("inf"):
            n = round(meta["fps"] * meta["duration"])
    except: n = None
    return n

A missing key raises `KeyError`, caught by the bare `except:`, yielding
`None`; the function itself never raises. -/
def Reader.estimateFrames (m : Meta) : Option ℤ :=
  match m.nframes with
  | none => none
  | some (NFrames.fin n) => some (n : ℤ)
  | some NFrames.inf =>
    match m.fps, m.duration with
    | some f, some d => some (pyRound (f * d))
    | _, _ => none

/-- Process-global state visible to this module: the one environment
variable it sets (`IMAGEIO_FFMPEG_EXE`), plus — so that the specification's
claim about an open-handle registry can even be stated — a registry
component listing open handles.  The source mutates only the former; no
code in `sc8prx` touches any registry. -/
structure Globals where
  ffmpegExe : Option String
  registry : List Nat
deriving DecidableEq, Repr

/-- Embedding of the static helper `_FF.ffmpeg(ff)`, the module's only
process-global mutation: `os.environ["IMAGEIO_FFMPEG_EXE"] = ff`. -/
def FF.ffmpegEnv (ff : String) (g : Globals) : Globals :=
  { g with ffmpegExe := some ff }

/-- A constructed `Reader` instance: its engine iterator state, metadata
snapshot, and the fixed frame size packed into `_info` (the leading 0 of
`struct.pack("!3I", 0, *size)` is constant and omitted). -/
structure ReaderObj where
  src : List EngEvent
  meta : Meta
  info : Nat × Nat
deriving DecidableEq, Repr

/-- Embedding of `Reader.__init__`, threading the process-global state it
could mutate: opens the engine (collaborator state `srcEvs`/`engMeta`),
takes the explicit `size` keyword else `meta["size"]` (whose absence raises
`KeyError`, modelled as error code 0).  The body performs no global
mutation — in particular no registry operation. -/
def Reader.init (srcEvs : List EngEvent) (engMeta : Meta)
    (sizeKw : Option (Nat × Nat)) (g : Globals) :
    Except Nat (ReaderObj × Globals) :=
  match sizeKw with
  | some sz => Except.ok (⟨srcEvs, engMeta, sz⟩, g)
  | none =>
    match engMeta.size with
    | some sz => Except.ok (⟨srcEvs, engMeta, sz⟩, g)
    | none => Except.error 0

/-- A constructed `Writer` instance: its target size `_size`, the sizes of
the pixel arrays handed to the engine's `append_data` so far (a stub engine
capturing emitted sizes), and — instrumentation of the external image
boundary — the number of resize calls (`Image(...).config(size=...)`)
performed. -/
structure WriterObj where
  size : Option (Nat × Nat)
  emitted : List (Nat × Nat)
  resizes : Nat
deriving DecidableEq, Repr

/-- Embedding of `Writer.__init__` (`self._size = size; self._io =
imageio.get_writer(...)`), threading the process-global state it could
mutate: it performs no global mutation — in particular no registry
operation. -/
def Writer.init (size : Option (Nat × Nat)) (g : Globals) :
    WriterObj × Globals :=
  (⟨size, [], 0⟩, g)

/-- Embedding of `Reader.close`/`__exit__` (`self._io.close()`): closes the
external engine handle only; no global mutation, no registry operation. -/
def Reader.close (_r : ReaderObj) (g : Globals) : Globals := g

/-- Embedding of `Writer.close`/`__exit__` (`self._io.close()`): closes the
external engine handle only; no global mutation, no registry operation. -/
def Writer.close (_w : WriterObj) (g : Globals) : Globals := g

/-- Embedding of `Writer.write`, acting on the only frame attribute the
size logic consults (the surface's size; the conversions from non-surface
inputs and to the engine wire format are external and size-preserving):

    size = srf.get_size()
    if self._size is None: self._size = size
    if size != self._size:
        srf = Image(srf).config(size=self._size).image
    self._io.append_data(numpy.array(pil(PixelData(srf))))

A resize produces a copy at the target size, counted in `resizes`; the size
handed to `append_data` is recorded in `emitted`. -/
def Writer.write (srfSize : Nat × Nat) (w : WriterObj) : WriterObj :=
  let tgt :=
    match w.size with
    | none => srfSize
    | some t => t
  if srfSize ≠ tgt then ⟨some tgt, w.emitted ++ [tgt], w.resizes + 1⟩
  else ⟨some tgt, w.emitted ++ [srfSize], w.resizes⟩

/-- Embedding of `Writer.writePixelData` (`self._io.append_data(
numpy.array(pil(pix)))`): hands the frame's pixel data to the engine at the
frame's own size, with no size check, no resize, and no change to the
writer's target size. -/
def Writer.writePixelData (pixSize : Nat × Nat) (w : WriterObj) : WriterObj :=
  ⟨w.size, w.emitted ++ [pixSize], w.resizes⟩

/-- Python truthiness of an optional integer argument (`None` and `0` are
falsy). -/
def pyTruthyNat : Option Nat → Bool
  | none => false
  | some n => n != 0

/-- Embedding of the frame selection of `Writer.concat_zip`
(`clip = src[start:start+frames] if frames else src[start:]`), with Python
slice semantics on the archive's frame list. -/
def Writer.concatZipClip (arch : List Nat) (start : Nat)
    (frames : Option Nat) : List Nat :=
  if pyTruthyNat frames then (arch.drop start).take (frames.getD 0)
  else arch.drop start

/-- Embedding of the frame selection of `Writer.encode`
(`seq = self[start:start+frames] if frames else self[start:] if start else
self`). -/
def Writer.encodeSeq (arch : List Nat) (start : Nat)
    (frames : Option Nat) : List Nat :=
  if pyTruthyNat frames then (arch.drop start).take (frames.getD 0)
  else if start ≠ 0 then arch.drop start
  else arch

theorem skip_pureSrc (n : Nat) (fs : List Nat) :
    Reader.skip n (pureSrc fs) = pureSrc (fs.drop n) := by
  induction n generalizing fs with
  | zero => simp [Reader.skip]
  | succ n ih =>
    cases fs with
    | nil => simp [Reader.skip, pureSrc]
    | cons f fs => simpa [Reader.skip, pureSrc] using ih fs

theorem iterate_pureSrc (fs : List Nat) :
    Reader.iterate (pureSrc fs) = (fs, none) := by
  induction fs with
  | nil => simp [Reader.iterate, pureSrc]
  | cons f fs ih => simp [Reader.iterate, pureSrc] at ih ⊢; simp [ih]

theorem skip_past_error (n : Nat) (pre : List Nat) (e : Nat) (rest : List EngEvent)
    (h : pre.length < n) :
    Reader.skip n (pureSrc pre ++ EngEvent.error e :: rest) = rest := by
  induction pre generalizing n with
  | nil =>
    obtain ⟨m, rfl⟩ := Nat.exists_eq_succ_of_ne_zero (Nat.pos_iff_ne_zero.mp h)
    simp [pureSrc, Reader.skip]
  | cons p pre ih =>
    obtain ⟨m, rfl⟩ : ∃ m, n = m + 1 :=
      ⟨n - 1, by omega⟩
    simp only [pureSrc, List.map_cons, List.cons_append, Reader.skip]
    exact ih m (by simpa using Nat.lt_of_succ_lt_succ h)

theorem iterate_past_error (pre : List Nat) (e : Nat) (rest : List EngEvent) :
    Reader.iterate (pureSrc pre ++ EngEvent.error e :: rest) = (pre, some e) := by
  induction pre with
  | nil => simp [pureSrc, Reader.iterate]
  | cons p pre ih =>
    simp only [pureSrc, List.map_cons, List.cons_append, Reader.iterate] at ih ⊢
    simp [ih]

theorem readN_past_error (n : Nat) (pre : List Nat) (e : Nat)
    (rest : List EngEvent) (h : pre.length < n) :
    Reader.readN n (pureSrc pre ++ EngEvent.error e :: rest) =
      Except.error e := by
  induction pre generalizing n with
  | nil =>
    obtain ⟨m, rfl⟩ := Nat.exists_eq_succ_of_ne_zero (Nat.pos_iff_ne_zero.mp h)
    simp [pureSrc, Reader.readN]
  | cons p pre ih =>
    obtain ⟨m, rfl⟩ : ∃ m, n = m + 1 :=
      ⟨n - 1, by omega⟩
    simp only [pureSrc, List.map_cons, List.cons_append, Reader.readN]
    exact ih m (by simpa using Nat.lt_of_succ_lt_succ h)

/-- Claim C5: for a frame source of length `L` and any `n`, `skip(n)` followed
by iterating the reader to exhaustion yields exactly `max(L − n, 0)` frames,
including when `n > L`. -/
theorem c5_skip_iterate_length (fs : List Nat) (n : Nat) :
    ((Reader.iterate (Reader.skip n (pureSrc fs))).1.length : ℤ) =
      max ((fs.length : ℤ) - (n : ℤ)) 0 := by
  rw [skip_pureSrc, iterate_pureSrc]
  simp only [List.length_drop]
  omega

/-- Claim C7 counterexample: on the source whose first engine call raises a
non-`StopIteration` engine failure (code 7) and which still holds one more
frame, `skip 2` swallows the failure and returns normally (a plain advanced
stream, no exception to the caller) having skipped 0 of the 2 requested
frames while the source is not exhausted — refuting both "any other engine
failure raised while skipping reaches the caller" and "silently stops early
only when the source is exhausted". -/
theorem c7_counterexample :
    Reader.skip 2 [EngEvent.error 7, EngEvent.frame 0] = [EngEvent.frame 0] ∧
      [EngEvent.frame 0] ≠ ([] : List EngEvent) := by
  constructor
  · rfl
  · decide

/-- Claim C7 (amended): Reader operations other than `skip` propagate
non-`StopIteration` engine errors unmodified to the immediate caller with
no retry, while `skip` stops early on any exception — exhaustion or engine
failure alike.  In order: (1) the engine iterator call underlying
`__next__` (which wraps it with no handler) surfaces the failure unmodified
with no retry; (2) `__iter__`, which catches only `StopIteration`, yields
the frames before the failure and then propagates it; (3) `read`, likewise
catching only `StopIteration`, propagates an engine failure met while
reading; (4) on a failure-free source `skip` stops early only at
exhaustion, discarding exactly `min(n, L)` frames; (5) an engine failure
raised while skipping is caught by `skip`'s bare `except:` — `skip`
consumes the failing call and returns normally instead of propagating. -/
theorem c7_amended_skip :
    (∀ (e : Nat) (rest : List EngEvent),
        engineNext (EngEvent.error e :: rest) =
          (Except.error (EngErr.fail e), rest)) ∧
    (∀ (pre : List Nat) (e : Nat) (rest : List EngEvent),
        Reader.iterate (pureSrc pre ++ EngEvent.error e :: rest) =
          (pre, some e)) ∧
    (∀ (n : Nat) (pre : List Nat) (e : Nat) (rest : List EngEvent),
        pre.length < n →
        Reader.readN n (pureSrc pre ++ EngEvent.error e :: rest) =
          Except.error e) ∧
    (∀ (fs : List Nat) (n : Nat),
        Reader.skip n (pureSrc fs) = pureSrc (fs.drop n)) ∧
    (∀ (n : Nat) (pre : List Nat) (e : Nat) (rest : List EngEvent),
        pre.length < n →
        Reader.skip n (pureSrc pre ++ EngEvent.error e :: rest) = rest) :=
  ⟨fun _ _ => rfl,
   iterate_past_error,
   fun n pre e rest h => readN_past_error n pre e rest h,
   fun fs n => skip_pureSrc n fs,
   fun n pre e rest h => skip_past_error n pre e rest h⟩

/-- Claim C7 witness: the amended theorem applied at a concrete input — a
source holding one frame, then an engine failure (code 9), then one more
frame: `__iter__` yields the first frame and propagates error 9, `read(2)`
propagates error 9, while `skip 3` consumes through the failure and returns
the remaining stream normally. -/
theorem c7_amended_witness :
    Reader.iterate [EngEvent.frame 5, EngEvent.error 9, EngEvent.frame 1] =
        ([5], some 9) ∧
      Reader.readN 2 [EngEvent.frame 5, EngEvent.error 9, EngEvent.frame 1] =
        Except.error 9 ∧
      Reader.skip 3 [EngEvent.frame 5, EngEvent.error 9, EngEvent.frame 1] =
        [EngEvent.frame 1] := by
  refine ⟨?_, ?_, ?_⟩
  · have h := c7_amended_skip.2.1 [5] 9 [EngEvent.frame 1]
    simpa [pureSrc] using h
  · have h := c7_amended_skip.2.2.1 2 [5] 9 [EngEvent.frame 1] (by decide)
    simpa [pureSrc] using h
  · have h := c7_amended_skip.2.2.2.2 3 [5] 9 [EngEvent.frame 1] (by decide)
    simpa [pureSrc] using h

theorem strideAux_eq_drop (c j : Nat) (fs : List Nat) :
    strideAux c j fs =
      match fs.drop c with
      | [] => []
      | x :: rest => x :: strideSel j rest := by
  induction c generalizing fs with
  | zero => cases fs <;> simp [strideAux, strideSel]
  | succ c ih => cases fs <;> simp [strideAux, ih]

theorem strideSel_eq_drop (j : Nat) (fs : List Nat) :
    strideSel j fs =
      match fs.drop j with
      | [] => []
      | x :: rest => x :: strideSel j rest :=
  strideAux_eq_drop j j fs

theorem strideSel_length (j : Nat) :
    ∀ (n : Nat) (fs : List Nat), fs.length ≤ n →
      (strideSel j fs).length = fs.length / (j + 1) := by
  intro n
  induction n with
  | zero =>
    intro fs hfs
    have : fs = [] := List.length_eq_zero.mp (Nat.le_zero.mp hfs)
    subst this
    simp [strideSel, strideAux]
  | succ n ih =>
    intro fs hfs
    rw [strideSel_eq_drop]
    cases hd : fs.drop j with
    | nil =>
      have hlen : fs.length ≤ j := by
        have := congrArg List.length hd
        simp [List.length_drop] at this
        omega
      simp [Nat.div_eq_of_lt (Nat.lt_succ_of_le hlen)]
    | cons x rest =>
      have hlen : fs.length = rest.length + (j + 1) := by
        have := congrArg List.length hd
        simp [List.length_drop] at this
        have hj : j ≤ fs.length := by
          by_contra hc
          simp [List.drop_eq_nil_of_le (Nat.le_of_not_le hc)] at hd
        omega
      have hrest : rest.length ≤ n := by omega
      simp only [List.length_cons, ih rest hrest, hlen]
      rw [Nat.add_div_right _ (Nat.succ_pos j)]

theorem skipPhase_pureSrc (j : Nat) :
    ∀ fs : List Nat,
      skipPhase j (pureSrc fs) =
        if j ≤ fs.length then Except.ok (pureSrc (fs.drop j))
        else Except.error EngErr.stop := by
  induction j with
  | zero => intro fs; simp [skipPhase]
  | succ j ih =>
    intro fs
    cases fs with
    | nil => simp [skipPhase, pureSrc]
    | cons f fs =>
      simp only [pureSrc, List.map_cons, skipPhase]
      rw [show (fs.map EngEvent.frame) = pureSrc fs from rfl, ih fs]
      by_cases h : j ≤ fs.length <;>
        simp [h, Nat.succ_le_succ_iff, List.drop_succ_cons, pureSrc, List.map_drop]

theorem readN_pureSrc (s : Nat) (fs : List Nat) :
    Reader.readN s (pureSrc fs) = Except.ok (pureSrc (fs.drop s)) := by
  induction s generalizing fs with
  | zero => simp [Reader.readN]
  | succ s ih =>
    cases fs with
    | nil => simp [Reader.readN, pureSrc]
    | cons f fs => simpa [Reader.readN, pureSrc] using ih fs

theorem decodeLoop_pure_none :
    ∀ (fuel : Nat) (fs : List Nat) (j i r : Nat) (prev : Option Nat)
      (es : List (Nat × Nat)), fs.length < fuel →
      decodeLoop fuel j none (fun _ => true) i prev es r (pureSrc fs) =
        ⟨i + (strideSel j fs).length,
         es ++ dedupIx i prev (strideSel j fs),
         r + (strideSel j fs).length⟩ := by
  intro fuel
  induction fuel with
  | zero => intro fs _ _ _ _ _ h; omega
  | succ fuel ih =>
    intro fs j i r prev es hfuel
    rw [strideSel_eq_drop]
    simp only [decodeLoop, skipPhase_pureSrc]
    by_cases hj : j ≤ fs.length
    · simp only [hj, if_true]
      cases hd : fs.drop j with
      | nil => simp [dedupIx, pureSrc]
      | cons x rest =>
        have hlen : fs.length = rest.length + (j + 1) := by
          have := congrArg List.length hd
          simp [List.length_drop] at this
          omega
        simp only [pureSrc, List.map_cons]
        have hrest : rest.length < fuel := by omega
        by_cases hp : prev = some x
        · simp only [hp, if_pos rfl, reduceCtorEq, if_neg (by simp : ¬(none : Option Nat) = some (i + 1))]
          rw [show (rest.map EngEvent.frame) = pureSrc rest from rfl,
            ih rest j (i + 1) (r + 1) (some x) es hrest]
          simp [dedupIx, hp]
          omega
        · simp only [if_neg hp, if_pos rfl, reduceCtorEq,
            if_neg (by simp : ¬(none : Option Nat) = some (i + 1))]
          rw [show (rest.map EngEvent.frame) = pureSrc rest from rfl,
            ih rest j (i + 1) (r + 1) (some x) (es ++ [(i, x)]) hrest]
          simp [dedupIx, hp]
          omega
    · simp only [hj, if_false]
      have : fs.drop j = [] := List.drop_eq_nil_of_le (by omega)
      simp [this, dedupIx]

theorem decodeLoop_pure_some :
    ∀ (fuel : Nat) (fs : List Nat) (j m i r : Nat) (prev : Option Nat)
      (es : List (Nat × Nat)), fs.length < fuel → i < m →
      decodeLoop fuel j (some m) (fun _ => true) i prev es r (pureSrc fs) =
        ⟨i + ((strideSel j fs).take (m - i)).length,
         es ++ dedupIx i prev ((strideSel j fs).take (m - i)),
         r + ((strideSel j fs).take (m - i)).length⟩ := by
  intro fuel
  induction fuel with
  | zero => intro fs _ _ _ _ _ _ h; omega
  | succ fuel ih =>
    intro fs j m i r prev es hfuel him
    rw [strideSel_eq_drop]
    simp only [decodeLoop, skipPhase_pureSrc]
    by_cases hj : j ≤ fs.length
    · simp only [hj, if_true]
      cases hd : fs.drop j with
      | nil => simp [dedupIx, pureSrc]
      | cons x rest =>
        have hlen : fs.length = rest.length + (j + 1) := by
          have := congrArg List.length hd
          simp [List.length_drop] at this
          omega
        simp only [pureSrc, List.map_cons]
        have hrest : rest.length < fuel := by omega
        obtain ⟨k, hk⟩ : ∃ k, m - i = k + 1 := ⟨m - i - 1, by omega⟩
        rw [hk]
        by_cases hbreak : m = i + 1
        · have hk0 : k = 0 := by omega
          subst hbreak
          by_cases hp : prev = some x
          · simp [hp, hk0, dedupIx, List.take]
          · simp [hp, hk0, dedupIx, List.take]
        · have hne : ¬ (some m = some (i + 1)) := by simp [hbreak]
          have hi1 : i + 1 < m := by omega
          have hk' : m - (i + 1) = k := by omega
          by_cases hp : prev = some x
          · simp only [hp, if_pos rfl, if_neg hne]
            rw [show (rest.map EngEvent.frame) = pureSrc rest from rfl,
              ih rest j m (i + 1) (r + 1) (some x) es hrest hi1, hk']
            simp [dedupIx, hp, List.take_cons]
            omega
          · simp only [if_neg hp, if_pos rfl, if_neg hne]
            rw [show (rest.map EngEvent.frame) = pureSrc rest from rfl,
              ih rest j m (i + 1) (r + 1) (some x) (es ++ [(i, x)]) hrest hi1, hk']
            simp [dedupIx, hp, List.take_cons]
            omega
    · simp only [hj, if_false]
      have : fs.drop j = [] := List.drop_eq_nil_of_le (by omega)
      simp [this, dedupIx]

/-- Claim C1 counterexample: a 2-frame source whose two frames have identical
byte data, decoded with `interval = 1`, `start = 0`, `count = 2` and a
never-failing archive.  The claim demands `min(count, ⌊(L − start)/k⌋) =
min(2, 2) = 2` archive entries, but `Reader.decode` deduplicates
consecutive identical frames (`if data != prev: zf.writestr(...)`): the
archive receives exactly 1 entry, while `nframes` is still 2. -/
theorem c1_counterexample :
    (Reader.decode 1 0 (some 2) (fun _ => true) none
          [EngEvent.frame 5, EngEvent.frame 5]).map
        (fun r => (r.entries.length, r.metaNframes)) = Except.ok (1, 2) ∧
      (1 : Nat) ≠ min 2 ((2 - 0) / 1) := by
  constructor
  · rfl
  · decide

/-- Claim C1 (amended): on a source of `L` frames with skip offset `start`,
interval `k` and frame budget `count` (unset, or at least 1), with a
never-failing archive, `Reader.decode` reads every `k`-th frame and stores
one archive entry per frame read **whose data differs from the previously
read frame** (consecutive duplicates are not re-stored), indexed by the
running counter; the metadata `nframes` equals
`min(count, ⌊(L − start)/k⌋)`, which counts all frames read, stored or
deduplicated. -/
theorem c1_amended_decode (fs : List Nat) (k s : Nat) (c : Option Nat)
    (fps : Option ℚ) (hc : c = none ∨ ∃ m, c = some (m + 1)) :
    (Reader.decode k s c (fun _ => true) fps (pureSrc fs)).map
        (fun r => (r.entries, r.metaNframes)) =
      Except.ok (dedupIx 0 none (takeOpt c (strideSel (k - 1) (fs.drop s))),
                 optMin c ((fs.length - s) / max k 1)) := by
  have hmax : max k 1 = (k - 1) + 1 := by omega
  have hlen : (pureSrc (fs.drop s)).length = fs.length - s := by
    simp [pureSrc]
  have hsel : (strideSel (k - 1) (fs.drop s)).length =
      (fs.length - s) / ((k - 1) + 1) := by
    rw [strideSel_length (k - 1) (fs.drop s).length (fs.drop s) le_rfl]
    simp [List.length_drop]
  simp only [Reader.decode, readN_pureSrc]
  rcases hc with rfl | ⟨m, rfl⟩
  · rw [decodeLoop_pure_none ((pureSrc (fs.drop s)).length + 1) (fs.drop s)
      (k - 1) 0 0 none [] (by simp only [pureSrc, List.length_map]; omega)]
    simp only [Except.map, takeOpt, optMin, List.nil_append, Nat.zero_add]
    rw [hsel, hmax]
  · rw [decodeLoop_pure_some ((pureSrc (fs.drop s)).length + 1) (fs.drop s)
      (k - 1) (m + 1) 0 0 none []
      (by simp only [pureSrc, List.length_map]; omega) (Nat.succ_pos m)]
    simp only [Except.map, takeOpt, optMin, List.nil_append, Nat.zero_add,
      Nat.sub_zero, List.length_take]
    rw [hsel, hmax]

/-- Claim C1 witness: the amended theorem applied to a 10-frame source of
distinct frames `0..9` with `interval = 2`, `count = 3`: the archive gets
exactly the three entries `(0, 1), (1, 3), (2, 5)` (every second frame,
none deduplicated) and `nframes = min(3, ⌊10/2⌋) = 3`. -/
theorem c1_amended_witness :
    (Reader.decode 2 0 (some 3) (fun _ => true) (some 30)
          (pureSrc (List.range 10))).map
        (fun r => (r.entries, r.metaNframes)) =
      Except.ok ([(0, 1), (1, 3), (2, 5)], 3) := by
  have h := c1_amended_decode (List.range 10) 2 0 (some 3) (some 30)
    (Or.inr ⟨2, rfl⟩)
  rw [h]
  decide

/-- Claim C2 counterexample: a source whose engine yields one frame and then
raises a non-`StopIteration` engine failure (code 7) inside the frame loop.
The claim demands the exception be re-raised to the caller of `decode`, but
the loop's bare `except: pass` swallows it: `decode` returns normally with
the archive holding the one frame already stored and `nframes = 1`. -/
theorem c2_counterexample :
    Reader.decode 1 0 none (fun _ => true) none
        [EngEvent.frame 0, EngEvent.error 7] =
      Except.ok ⟨[(0, 0)], none, 1⟩ := by
  decide

/-- Claim C2 (amended): any exception raised by the engine or the archive
during the frame-by-frame loop of `Reader.decode` is caught by the loop's
bare `except: pass` and suppressed — `decode` returns normally (with
partial-progress metadata) rather than re-raising.  Only failures outside
the guarded loop (an engine failure while reading the initial `start`
frames) propagate to the caller. -/
theorem c2_amended_decode (k s : Nat) (c : Option Nat) (archOk : Nat → Bool)
    (fps : Option ℚ) (evs evs1 : List EngEvent)
    (h : Reader.readN s evs = Except.ok evs1) :
    isOkE (Reader.decode k s c archOk fps evs) = true := by
  simp only [Reader.decode, h, isOkE]

/-- Claim C2 witness: the amended theorem at a concrete input — a source
whose very first engine call fails (code 3): the loop catches it and
`decode` still finishes normally. -/
theorem c2_amended_witness :
    isOkE (Reader.decode 1 0 none (fun _ => true) none [EngEvent.error 3]) =
      true :=
  c2_amended_decode 1 0 none (fun _ => true) none [EngEvent.error 3]
    [EngEvent.error 3] rfl

theorem decodeLoop_reads_bounds :
    ∀ (fuel j : Nat) (c : Option Nat) (archOk : Nat → Bool) (i : Nat)
      (prev : Option Nat) (es : List (Nat × Nat)) (r : Nat)
      (evs : List EngEvent),
      i ≤ (decodeLoop fuel j c archOk i prev es r evs).nframes ∧
      r ≤ (decodeLoop fuel j c archOk i prev es r evs).reads ∧
      (decodeLoop fuel j c archOk i prev es r evs).nframes + r ≤
        (decodeLoop fuel j c archOk i prev es r evs).reads + i ∧
      (decodeLoop fuel j c archOk i prev es r evs).reads + i ≤
        (decodeLoop fuel j c archOk i prev es r evs).nframes + r + 1 := by
  intro fuel
  induction fuel with
  | zero =>
    intro j c archOk i prev es r evs
    simp only [decodeLoop]
    omega
  | succ fuel ih =>
    intro j c archOk i prev es r evs
    rcases hsp : skipPhase j evs with e | evs1
    · simp only [decodeLoop, hsp]
      omega
    · cases evs1 with
      | nil =>
        simp only [decodeLoop, hsp]
        omega
      | cons ev evs2 =>
        cases ev with
        | error e =>
          simp only [decodeLoop, hsp]
          omega
        | frame d =>
          by_cases hp : prev = some d
          · by_cases hc : c = some (i + 1)
            · simp only [decodeLoop, hsp]
              simp [hp, hc]
              omega
            · have := ih j c archOk (i + 1) (some d) es (r + 1) evs2
              simp only [decodeLoop, hsp]
              simp [hp, hc]
              omega
          · by_cases ha : archOk i = true
            · by_cases hc : c = some (i + 1)
              · simp only [decodeLoop, hsp]
                simp [hp, ha, hc]
                omega
              · have := ih j c archOk (i + 1) (some d) (es ++ [(i, d)]) (r + 1) evs2
                simp only [decodeLoop, hsp]
                simp [hp, ha, hc]
                omega
            · simp only [decodeLoop, hsp]
              simp [hp, ha]
              omega

theorem decodeLoop_reads_eq :
    ∀ (fuel j : Nat) (c : Option Nat) (i : Nat) (prev : Option Nat)
      (es : List (Nat × Nat)) (r : Nat) (evs : List EngEvent),
      (decodeLoop fuel j c (fun _ => true) i prev es r evs).reads + i =
        (decodeLoop fuel j c (fun _ => true) i prev es r evs).nframes + r := by
  intro fuel
  induction fuel with
  | zero =>
    intro j c i prev es r evs
    simp only [decodeLoop]
    omega
  | succ fuel ih =>
    intro j c i prev es r evs
    rcases hsp : skipPhase j evs with e | evs1
    · simp only [decodeLoop, hsp]
      omega
    · cases evs1 with
      | nil =>
        simp only [decodeLoop, hsp]
        omega
      | cons ev evs2 =>
        cases ev with
        | error e =>
          simp only [decodeLoop, hsp]
          omega
        | frame d =>
          by_cases hp : prev = some d
          · by_cases hc : c = some (i + 1)
            · simp only [decodeLoop, hsp]
              simp [hp, hc]
              omega
            · have := ih j c (i + 1) (some d) es (r + 1) evs2
              simp only [decodeLoop, hsp]
              simp [hp, hc]
              omega
          · by_cases hc : c = some (i + 1)
            · simp only [decodeLoop, hsp]
              simp [hp, hc]
              omega
            · have := ih j c (i + 1) (some d) (es ++ [(i, d)]) (r + 1) evs2
              simp only [decodeLoop, hsp]
              simp [hp, hc]
              omega

/-- Claim C10 counterexample: a 3-frame source decoded with a frame archive
whose store of entry 1 raises (`archOk i = (i == 0)`).  Two frames are read
from the engine inside the loop (frame 1, stored as entry 0, and frame 2,
whose store fails), but the metadata written records `nframes = 1`: the
frame read just before the archive exception is not counted, so `nframes`
does not equal the number of frames read before termination. -/
theorem c10_counterexample :
    decodeLoop 4 0 none (fun i => i == 0) 0 none [] 0
        [EngEvent.frame 1, EngEvent.frame 2, EngEvent.frame 3] =
      ⟨1, [(0, 1)], 2⟩ ∧ (1 : Nat) ≠ 2 := by
  constructor
  · rfl
  · decide

/-- Claim C10 (amended): every run of `Reader.decode` whose pre-loop
`read(start)` succeeds — including runs whose frame loop terminates via an
engine or archive exception — still writes the archive metadata, with
`nframes` equal to the loop counter.  That counter equals the number of
frames read in the loop whenever the archive itself never fails; when the
loop is terminated by an archive store exception, the frame read just
before it is left uncounted (the reads exceed the counter by exactly one,
never more). -/
theorem c10_amended_partial_meta :
    (∀ (fuel j : Nat) (c : Option Nat) (archOk : Nat → Bool) (i : Nat)
        (prev : Option Nat) (es : List (Nat × Nat)) (r : Nat)
        (evs : List EngEvent),
        (decodeLoop fuel j c archOk i prev es r evs).nframes + r ≤
          (decodeLoop fuel j c archOk i prev es r evs).reads + i ∧
        (decodeLoop fuel j c archOk i prev es r evs).reads + i ≤
          (decodeLoop fuel j c archOk i prev es r evs).nframes + r + 1) ∧
    (∀ (fuel j : Nat) (c : Option Nat) (i : Nat) (prev : Option Nat)
        (es : List (Nat × Nat)) (r : Nat) (evs : List EngEvent),
        (decodeLoop fuel j c (fun _ => true) i prev es r evs).reads + i =
          (decodeLoop fuel j c (fun _ => true) i prev es r evs).nframes + r) ∧
    (∀ (k s : Nat) (c : Option Nat) (archOk : Nat → Bool) (fps : Option ℚ)
        (evs evs1 : List EngEvent),
        Reader.readN s evs = Except.ok evs1 →
        (Reader.decode k s c archOk fps evs).map DecodeResult.metaNframes =
          Except.ok
            (decodeLoop (evs1.length + 1) (k - 1) c archOk 0 none [] 0
              evs1).nframes) := by
  refine ⟨fun fuel j c archOk i prev es r evs => ?_, decodeLoop_reads_eq, ?_⟩
  · have := decodeLoop_reads_bounds fuel j c archOk i prev es r evs
    omega
  · intro k s c archOk fps evs evs1 h
    simp [Reader.decode, h, Except.map]

/-- Claim C10 witness: the amended theorem's decode-level part applied to a
one-frame source with the trivial archive: decode finishes with metadata
recording the loop count 1. -/
theorem c10_amended_witness :
    (Reader.decode 1 0 none (fun _ => true) none [EngEvent.frame 4]).map
        DecodeResult.metaNframes = Except.ok 1 := by
  have h := c10_amended_partial_meta.2.2 1 0 none (fun _ => true) none
    [EngEvent.frame 4] [EngEvent.frame 4] rfl
  rw [h]
  decide

/-- Claim C6: `estimateFrames` returns the declared count when finite, the
rounded `fps × duration` product when the declared count is infinity, and
the unknown sentinel `None` when the needed metadata is unavailable (the
`nframes` key absent, or the count infinite with `fps` or `duration`
absent); being a total function of the metadata it never raises — the bare
`except:` in the source converts every lookup failure into `None`. -/
theorem c6_estimateFrames :
    (∀ (m : Meta) (n : Nat), m.nframes = some (NFrames.fin n) →
        Reader.estimateFrames m = some (n : ℤ)) ∧
    (∀ (m : Meta) (f d : ℚ), m.nframes = some NFrames.inf →
        m.fps = some f → m.duration = some d →
        Reader.estimateFrames m = some (pyRound (f * d))) ∧
    (∀ m : Meta,
        m.nframes = none ∨
          m.nframes = some NFrames.inf ∧ (m.fps = none ∨ m.duration = none) →
        Reader.estimateFrames m = none) := by
  refine ⟨?_, ?_, ?_⟩
  · intro m n h
    simp [Reader.estimateFrames, h]
  · intro m f d h hf hd
    simp [Reader.estimateFrames, h, hf, hd]
  · intro m h
    rcases h with h | ⟨h, hf | hd⟩
    · simp [Reader.estimateFrames, h]
    · simp [Reader.estimateFrames, h, hf]
    · cases hm : m.fps <;> simp [Reader.estimateFrames, h, hd, hm]

/-- Claim C6 witness: the theorem applied at concrete metadata — a declared
finite count of 10 is returned as is; an infinite declared count with
`fps = 30` and `duration = 2` estimates `round(60) = 60`; an infinite
declared count with `fps` missing yields `None`. -/
theorem c6_witness :
    Reader.estimateFrames ⟨some (NFrames.fin 10), some 30, none, none⟩ =
        some 10 ∧
      Reader.estimateFrames ⟨some NFrames.inf, some 30, some 2, none⟩ =
        some 60 ∧
      Reader.estimateFrames ⟨some NFrames.inf, none, some 2, none⟩ = none := by
  refine ⟨c6_estimateFrames.1 _ 10 rfl, ?_,
    c6_estimateFrames.2.2 _ (Or.inr ⟨rfl, Or.inl rfl⟩)⟩
  have h := c6_estimateFrames.2.1 ⟨some NFrames.inf, some 30, some 2, none⟩
    30 2 rfl rfl rfl
  rw [h]
  norm_num [pyRound]

/-- Claim C3 counterexample: constructing a `Reader` and a `Writer` from a
fresh process state with an empty registry leaves the registry empty
(length 0), whereas the claim requires each constructor to add its instance
(length 1 after one construction).  No registry exists in the source. -/
theorem c3_counterexample :
    (Reader.init [] ⟨none, none, none, some (4, 3)⟩ none ⟨none, []⟩).map
        (fun p => p.2.registry.length) = Except.ok 0 ∧
      (Writer.init none ⟨none, []⟩).2.registry.length = 0 ∧
      (0 : Nat) ≠ 1 := by
  refine ⟨rfl, rfl, by decide⟩

/-- Claim C3 (amended): the source maintains no open-handle registry at
all.  `Reader`/`Writer` construction and close leave process-global state
entirely unchanged (so any registry component is never mutated — neither
added to on construction nor removed from on close), and the one global
mutation in the module, `_FF.ffmpeg` setting the codec executable path,
also leaves the registry component untouched. -/
theorem c3_amended_registry :
    (∀ (evs : List EngEvent) (m : Meta) (szKw : Option (Nat × Nat))
        (g : Globals) (robj : ReaderObj) (g' : Globals),
        Reader.init evs m szKw g = Except.ok (robj, g') → g' = g) ∧
    (∀ (sz : Option (Nat × Nat)) (g : Globals), (Writer.init sz g).2 = g) ∧
    (∀ (r : ReaderObj) (g : Globals), Reader.close r g = g) ∧
    (∀ (w : WriterObj) (g : Globals), Writer.close w g = g) ∧
    (∀ (ff : String) (g : Globals),
        (FF.ffmpegEnv ff g).registry = g.registry) := by
  refine ⟨?_, fun _ _ => rfl, fun _ _ => rfl, fun _ _ => rfl, fun _ _ => rfl⟩
  intro evs m szKw g robj g' h
  cases szKw with
  | some sz =>
    simp [Reader.init] at h
    exact h.2.symm
  | none =>
    cases hm : m.size with
    | some sz =>
      simp [Reader.init, hm] at h
      exact h.2.symm
    | none => simp [Reader.init, hm] at h

/-- Claim C3 witness: the amended theorem applied at concrete state — a
`Writer` constructed from a registry holding handle 7 leaves it holding
exactly handle 7, and a successfully constructed `Reader` (hypothesis
discharged by `rfl`) returns the global state unchanged. -/
theorem c3_amended_witness :
    (Writer.init none ⟨some "x", [7]⟩).2 = ⟨some "x", [7]⟩ ∧
      (⟨some "x", [7]⟩ : Globals) = ⟨some "x", [7]⟩ :=
  ⟨c3_amended_registry.2.1 none ⟨some "x", [7]⟩,
   c3_amended_registry.1 [] ⟨none, none, none, none⟩ (some (2, 2))
     ⟨some "x", [7]⟩ ⟨[], ⟨none, none, none, none⟩, (2, 2)⟩
     ⟨some "x", [7]⟩ rfl⟩

theorem write_foldl_fixed (rest : List (Nat × Nat)) :
    ∀ (w : WriterObj) (t : Nat × Nat), w.size = some t →
      rest.foldl (fun acc s => Writer.write s acc) w =
        ⟨some t, w.emitted ++ List.replicate rest.length t,
         w.resizes + (rest.filter (fun s => decide (s ≠ t))).length⟩ := by
  induction rest with
  | nil =>
    intro w t h
    cases w with
    | mk sz em rz =>
      simp only [List.foldl_nil, List.replicate, List.append_nil,
        List.filter_nil, List.length_nil, Nat.add_zero]
      simp at h
      rw [h]
  | cons s rest ih =>
    intro w t h
    simp only [List.foldl_cons]
    by_cases hst : s = t
    · subst hst
      have hw : Writer.write s w = ⟨some s, w.emitted ++ [s], w.resizes⟩ := by
        simp [Writer.write, h]
      rw [hw, ih ⟨some s, w.emitted ++ [s], w.resizes⟩ s rfl]
      simp [List.replicate_succ, List.filter_cons]
    · have hw : Writer.write s w =
          ⟨some t, w.emitted ++ [t], w.resizes + 1⟩ := by
        simp [Writer.write, h, hst]
      rw [hw, ih ⟨some t, w.emitted ++ [t], w.resizes + 1⟩ t rfl]
      simp [List.replicate_succ, List.filter_cons, hst]
      omega

/-- Claim C4: for a `Writer` constructed without an explicit size, the size
of the first frame written becomes the target size (and the first frame is
emitted unresized); every subsequent `write` emits at exactly that target —
a frame of a different size is resized (one resize call per mismatched
frame) before the engine's append — and the target never changes. -/
theorem c4_write_target_size (s1 : Nat × Nat) (rest : List (Nat × Nat)) :
    (rest.foldl (fun acc s => Writer.write s acc)
          (Writer.write s1 ⟨none, [], 0⟩)).size = some s1 ∧
      (rest.foldl (fun acc s => Writer.write s acc)
          (Writer.write s1 ⟨none, [], 0⟩)).emitted =
        List.replicate (rest.length + 1) s1 ∧
      (rest.foldl (fun acc s => Writer.write s acc)
          (Writer.write s1 ⟨none, [], 0⟩)).resizes =
        (rest.filter (fun s => decide (s ≠ s1))).length := by
  have h1 : Writer.write s1 ⟨none, [], 0⟩ = ⟨some s1, [s1], 0⟩ := by
    simp [Writer.write]
  rw [h1, write_foldl_fixed rest ⟨some s1, [s1], 0⟩ s1 rfl]
  simp [List.replicate_succ]

/-- Claim C9: `writePixelData` performs no size enforcement whatsoever —
for every writer state and every frame (in particular one whose size
differs from the writer's target), it triggers no resize call, leaves the
target size unchanged, and appends the frame's pixel data to the engine at
the frame's own size. -/
theorem c9_writePixelData_no_resize (w : WriterObj) (s : Nat × Nat) :
    (Writer.writePixelData s w).resizes = w.resizes ∧
      (Writer.writePixelData s w).size = w.size ∧
      (Writer.writePixelData s w).emitted = w.emitted ++ [s] :=
  ⟨rfl, rfl, rfl⟩

/-- Claim C8 counterexample: `concat_zip` on a 2-frame archive with
`start = 0` and `count = 0` writes both frames, not zero: `0` is falsy in
Python, so `if frames` falls through to the `[start:]` slice — refuting
"count = 0 writes no frames". -/
theorem c8_counterexample :
    Writer.concatZipClip [10, 20] 0 (some 0) = [10, 20] ∧
      Writer.concatZipClip [10, 20] 0 (some 0) ≠ [] := by
  exact ⟨rfl, by decide⟩

/-- Claim C8 (amended): `concat_zip` with count set **and nonzero** writes
exactly the frames of the slice `[start : start+count]` in order; with
count unset **or zero** (both falsy) it writes exactly the frames of
`[start:]`; and `encode` selects frames by exactly the same rule as
`concat_zip`. -/
theorem c8_amended_slicing :
    (∀ (arch : List Nat) (start n : Nat),
        Writer.concatZipClip arch start (some (n + 1)) =
          (arch.drop start).take (n + 1)) ∧
    (∀ (arch : List Nat) (start : Nat),
        Writer.concatZipClip arch start none = arch.drop start) ∧
    (∀ (arch : List Nat) (start : Nat),
        Writer.concatZipClip arch start (some 0) = arch.drop start) ∧
    (∀ (arch : List Nat) (start : Nat) (c : Option Nat),
        Writer.encodeSeq arch start c = Writer.concatZipClip arch start c) := by
  refine ⟨fun arch start n => rfl, fun arch start => rfl,
    fun arch start => rfl, fun arch start c => ?_⟩
  cases c with
  | none =>
    simp only [Writer.encodeSeq, Writer.concatZipClip, pyTruthyNat,
      Bool.false_eq_true, if_false]
    by_cases hs : start = 0
    · simp [hs]
    · simp [hs]
  | some n =>
    cases n with
    | zero =>
      simp only [Writer.encodeSeq, Writer.concatZipClip, pyTruthyNat]
      by_cases hs : start = 0
      · simp [hs]
      · simp [hs]
    | succ n => rfl

end Sc8prx
